import Mathlib

/-!
Shallow embedding of the needs-based scheduling core of the repository
(`XEnvironment.py`, `twitter_cli.py`), together with theorems settling the
spec claims about it.

Modelling conventions:
* Python floats are modelled as exact rationals (`ℚ`).
* Timestamps (`datetime`) are modelled as rational seconds since an epoch;
  `datetime.now()` becomes an explicit `now` argument to every function that
  reads the clock.
* Python dicts keyed by the closed enumerations are modelled as total
  functions where the code guarantees every key is present, and as
  association lists where partiality matters (the persisted-file needs dict).
* Fallible code (exceptions) returns `Option`.
-/

namespace XEnv

/-- The `NeedState` enumeration from `XEnvironment.py`: the five advertiser needs,
in source declaration (and hence Python iteration) order. -/
inductive NeedState where
  | engagement
  | reach
  | relevance
  | authority
  | conversion
deriving DecidableEq, Repr

/-- Iteration order of the `NeedState` enum (`for need in NeedState`). -/
def NeedState.all : List NeedState :=
  [.engagement, .reach, .relevance, .authority, .conversion]

/-- Function `NeedState.value`: the string value of each enum member. -/
def NeedState.value : NeedState → String
  | .engagement => "engagement"
  | .reach => "reach"
  | .relevance => "relevance"
  | .authority => "authority"
  | .conversion => "conversion"

/-- Method `NeedState.decay_rates`: points-per-hour decay rate of each need. -/
def NeedState.decay_rates : NeedState → ℚ
  | .engagement => 1/2
  | .reach => 3/10
  | .relevance => 1/5
  | .authority => 1/10
  | .conversion => 2/5

/-- The `ActionType` enumeration from `XEnvironment.py`, in declaration order. -/
inductive ActionType where
  | post
  | reply
  | quote
  | retweet
  | like
  | follow
  | search
deriving DecidableEq, Repr

/-- Iteration order of the `ActionType` enum (`for action in ActionType`). -/
def ActionType.all : List ActionType :=
  [.post, .reply, .quote, .retweet, .like, .follow, .search]

/-- The `XMetrics` model: the performance-metrics fields.  `last_updated` is a
rational timestamp (seconds). -/
structure XMetrics where
  followers : Int
  following : Int
  tweets : Int
  engagement_rate : ℚ
  impression_rate : ℚ
  last_updated : ℚ
deriving DecidableEq, Repr

/-- Default `XMetrics` (all Pydantic field defaults, `last_updated = now`). -/
def XMetrics.default (now : ℚ) : XMetrics :=
  ⟨0, 0, 0, 0, 0, now⟩

/-- The `StateManager`: needs pool, metrics and the last-action timestamp.
In normal operation the needs dict holds every member of the closed
enumeration, so it is modelled as a total function. -/
structure StateManager where
  needs : NeedState → ℚ
  metrics : XMetrics
  last_action_time : ℚ

/-- The default `StateManager` produced by the Pydantic field factories:
every need at `100.0`, default metrics, `last_action_time = now`. -/
def StateManager.initial (now : ℚ) : StateManager :=
  ⟨fun _ => 100, XMetrics.default now, now⟩

/-- Method `StateManager.decay_needs`: subtract `rate × elapsed_hours` from every
need, clamped at `0`, where `elapsed_hours = (now − last_action_time)/3600`.
`last_action_time` is not touched. -/
def StateManager.decay_needs (now : ℚ) (st : StateManager) : StateManager :=
  let decay_hours : ℚ := (now - st.last_action_time) / 3600
  { st with needs := fun n => max 0 (st.needs n - n.decay_rates * decay_hours) }

/-- The JSON document written by `StateManager.save_state`: needs keyed by
their string names, the dumped metrics, and the ISO last-action timestamp. -/
structure StoredFile where
  needs : List (String × ℚ)
  metrics : XMetrics
  last_action_time : ℚ
deriving Repr

/-- Method `StateManager.save_state`: serialize the needs dict (iteration order of
the default factory, i.e. enumeration order), metrics, and timestamp. -/
def StateManager.save_state (st : StateManager) : StoredFile :=
  { needs := NeedState.all.map (fun n => (n.value, st.needs n)),
    metrics := st.metrics,
    last_action_time := st.last_action_time }

/-- Constructor call `NeedState(k)`: value-to-member lookup of the enum constructor call;
`none` models the `ValueError` raised on an unknown value. -/
def parseNeed (s : String) : Option NeedState :=
  NeedState.all.find? (fun n => n.value == s)

/-- The dict comprehension `\x7bNeedState(k): v for k, v in state_dict["needs"].items()\x7d`:
fails (uncaught `ValueError`) on any unknown key, else translates every key. -/
def loadNeedsDict : List (String × ℚ) → Option (List (NeedState × ℚ))
  | [] => some []
  | p :: rest =>
    match parseNeed p.1 with
    | none => none
    | some n => (loadNeedsDict rest).map (fun d => (n, p.2) :: d)

/-- Lookup in the reconstructed needs dict; a later duplicate key overwrites
an earlier one, and a missing key yields `none` (Python `KeyError` on use). -/
def dictGet (d : List (NeedState × ℚ)) (n : NeedState) : Option ℚ :=
  (d.reverse.find? (fun p => p.1 == n)).map (fun p => p.2)

/-- The in-memory state right after `load_state` replaced the three fields.
The needs dict may be partial, hence `Option`-valued. -/
structure LoadedState where
  needs : NeedState → Option ℚ
  metrics : XMetrics
  last_action_time : ℚ

/-- Method `StateManager.load_state` on an existing state file: reconstruct needs,
metrics and timestamp from the parsed document; `none` models the uncaught
exception on an unknown need key. -/
def load_state (f : StoredFile) : Option LoadedState :=
  (loadNeedsDict f.needs).map
    (fun d => { needs := fun n => dictGet d n,
                metrics := f.metrics,
                last_action_time := f.last_action_time })

/-- The action-effects catalog built once in the environment constructor:
how each action replenishes needs.  `QUOTE`, `RETWEET` and `SEARCH` have no
entry (`none`). -/
def action_effects : ActionType → Option (List (NeedState × ℚ))
  | .post => some [(.engagement, 15), (.reach, 10), (.relevance, 5)]
  | .reply => some [(.engagement, 20), (.authority, 5)]
  | .like => some [(.engagement, 5), (.relevance, 2)]
  | .follow => some [(.reach, 10), (.authority, 5)]
  | _ => none

/-- Utility score of one action:
`sum(effect * (1.0 - needs[need] / 100.0) for need, effect in effects)`. -/
def utility (needs : NeedState → ℚ) (eff : List (NeedState × ℚ)) : ℚ :=
  (eff.map (fun p => p.2 * (1 - needs p.1 / 100))).sum

/-- The unsorted candidate list of `get_available_actions`: iterate the
`ActionType` enum in order, keeping only actions present in the catalog. -/
def candidateActions (needs : NeedState → ℚ) : List (ActionType × ℚ) :=
  ActionType.all.filterMap
    (fun a => (action_effects a).map (fun eff => (a, utility needs eff)))

/-- Ordering used by `sorted(actions, key=lambda x: x[1], reverse=True)`:
`p` may come before `q` when `p`'s score is at least `q`'s. -/
def rankRel (p q : ActionType × ℚ) : Prop := q.2 ≤ p.2

instance : DecidableRel rankRel := fun p q => inferInstanceAs (Decidable (q.2 ≤ p.2))

instance : IsTotal (ActionType × ℚ) rankRel := ⟨fun p q => le_total q.2 p.2⟩

instance : IsTrans (ActionType × ℚ) rankRel :=
  ⟨fun _ _ _ h1 h2 => le_trans h2 h1⟩

/-- Method `XEnvironment.get_available_actions`: decay the pool in place, then
return the decayed state together with the score-ranked candidate list.
Python's `sorted` is a stable sort; `List.insertionSort rankRel` is the stable
sort for the same descending key order, hence computes the same list. -/
def get_available_actions (now : ℚ) (st : StateManager) :
    StateManager × List (ActionType × ℚ) :=
  let decayed := st.decay_needs now
  (decayed, (candidateActions decayed.needs).insertionSort rankRel)

/-- The needs-update loop of `_update_state_from_action`:
`self.needs[need] = min(100.0, self.needs[need] + effect)` for each pair,
in order. -/
def apply_effects : List (NeedState × ℚ) → (NeedState → ℚ) → (NeedState → ℚ)
  | [], needs => needs
  | p :: rest, needs =>
    apply_effects rest (fun n => if n = p.1 then min 100 (needs n + p.2) else needs n)

/-- Method `XEnvironment._update_state_from_action`: apply the catalog effects
of the action (if any) and set `last_action_time` to now. -/
def update_state_from_action (now : ℚ) (action : ActionType) (st : StateManager) :
    StateManager :=
  { needs :=
      match action_effects action with
      | some eff => apply_effects eff st.needs
      | none => st.needs,
    metrics := st.metrics,
    last_action_time := now }

/-- Result dict of an external call: a success payload, or a dict carrying
the `"error"` key. -/
inductive ApiResult where
  | ok (payload : String)
  | err (msg : String)
deriving DecidableEq, Repr

/-- The Python membership test `"error" in result`. -/
def ApiResult.hasError : ApiResult → Bool
  | .ok _ => false
  | .err _ => true

/-- Outcome of awaiting `_perform_api_action`: a returned result dict, or a
raised exception with its message. -/
inductive CallOutcome where
  | returns (r : ApiResult)
  | raises (msg : String)
deriving DecidableEq, Repr

/-- Method `XEnvironment.execute_action`: on a result without `"error"`, update
state and persist; on an error result or an exception, leave state alone and
surface the error.  Returns (state after the call, whether `save_state` ran,
result dict handed back to the caller). -/
def execute_action (now : ℚ) (action : ActionType) (outcome : CallOutcome)
    (st : StateManager) : StateManager × Bool × ApiResult :=
  match outcome with
  | .raises m => (st, false, .err m)
  | .returns r =>
    if r.hasError then (st, false, r)
    else (update_state_from_action now action st, true, r)

/-- An HTTP response as `_make_request` inspects it: status code, the
`x-rate-limit-reset` header when present, the two recognized error shapes of
the JSON body, and the body text (also the success payload). -/
structure HttpResponse where
  status : Nat
  rateLimitReset : Option Int
  errorsMsg : Option String
  errorMsg : Option String
  bodyText : String
deriving DecidableEq, Repr

/-- Outcome of `_make_request`: a success payload or an error-dict message. -/
inductive ReqResult where
  | success (payload : String)
  | failure (msg : String)
deriving DecidableEq, Repr

/-- The non-200 error extraction of `_make_request`: first the
`errors[0].message` shape, then the `error.message` shape, else the generic
status-plus-body message. -/
def respError (r : HttpResponse) : ReqResult :=
  match r.errorsMsg with
  | some m => .failure m
  | none =>
    match r.errorMsg with
    | some m => .failure m
    | none =>
      .failure ("API returned status code " ++ toString r.status ++ ": " ++ r.bodyText)

/-- Method `TwitterAPI._make_request`, driven by the queue of responses the
server will produce (one per attempt); the clock is an integer Unix time and
sleeping advances it.  On 429 with `sleep_time = max(reset − now, 0) > 0` the
code sleeps and retries (recursively); on 429 with `sleep_time = 0` it falls
through to the non-200 error extraction.  Returns the result and the list of
sleep durations performed.  An exhausted queue models the request call itself
raising, which the code turns into an error result. -/
def make_request (now : Int) : List HttpResponse → ReqResult × List Int
  | [] => (.failure ("connection failure"), [])
  | r :: rest =>
    if r.status = 429 then
      let reset_time : Int := r.rateLimitReset.getD 0
      let sleep_time : Int := max (reset_time - now) 0
      if 0 < sleep_time then
        let next := make_request (now + sleep_time) rest
        (next.1, sleep_time :: next.2)
      else (respError r, [])
    else if r.status = 200 then (.success r.bodyText, [])
    else (respError r, [])

-- ========== Theorems ==========

/-- Looking up a need by its own string value succeeds. -/
theorem parseNeed_value (n : NeedState) : parseNeed n.value = some n := by
  cases n <;> rfl

/-- A successful enum lookup returns the member whose value is the key. -/
theorem parseNeed_eq_some {s : String} {n : NeedState} (h : parseNeed s = some n) :
    n.value = s := by
  simp only [parseNeed] at h
  have hfind := List.find?_some h
  simp only [beq_iff_eq] at hfind
  exact hfind

/-- An unknown key anywhere in the stored needs makes the dict comprehension
fail. -/
theorem loadNeedsDict_none {l : List (String × ℚ)}
    (h : ∃ p ∈ l, parseNeed p.1 = none) : loadNeedsDict l = none := by
  induction l with
  | nil => simp at h
  | cons p rest ih =>
    obtain ⟨q, hq, hqn⟩ := h
    rcases List.mem_cons.mp hq with rfl | hmem
    · simp [loadNeedsDict, hqn]
    · cases hp : parseNeed p.1 with
      | none => simp [loadNeedsDict, hp]
      | some n => simp [loadNeedsDict, hp, ih ⟨q, hmem, hqn⟩]

/-- Every entry of a successfully reconstructed needs dict comes from a stored
key that parses to its need. -/
theorem loadNeedsDict_mem {l : List (String × ℚ)} {d : List (NeedState × ℚ)}
    (h : loadNeedsDict l = some d) :
    ∀ q ∈ d, ∃ p ∈ l, parseNeed p.1 = some q.1 := by
  induction l generalizing d with
  | nil =>
    simp only [loadNeedsDict, Option.some.injEq] at h
    subst h; simp
  | cons p rest ih =>
    cases hp : parseNeed p.1 with
    | none => simp [loadNeedsDict, hp] at h
    | some n =>
      simp only [loadNeedsDict, hp, Option.map_eq_some'] at h
      obtain ⟨d0, hd0, hdd⟩ := h
      subst hdd
      intro q hq
      rcases List.mem_cons.mp hq with rfl | hq0
      · exact ⟨p, List.mem_cons_self p rest, hp⟩
      · obtain ⟨p0, hp0, hpq⟩ := ih hd0 q hq0
        exact ⟨p0, List.mem_cons_of_mem p hp0, hpq⟩

/-- C2: loading immediately after saving reconstructs the state exactly: every
need of the closed enumeration gets back its saved value, and metrics and
`last_action_time` are restored unchanged. -/
theorem load_save_roundtrip (st : StateManager) :
    load_state st.save_state =
      some { needs := fun n => some (st.needs n),
             metrics := st.metrics,
             last_action_time := st.last_action_time } := by
  have hd : load_state st.save_state =
      some { needs := fun n => dictGet
               [(NeedState.engagement, st.needs NeedState.engagement),
                (NeedState.reach, st.needs NeedState.reach),
                (NeedState.relevance, st.needs NeedState.relevance),
                (NeedState.authority, st.needs NeedState.authority),
                (NeedState.conversion, st.needs NeedState.conversion)] n,
             metrics := st.metrics,
             last_action_time := st.last_action_time } := rfl
  rw [hd]
  have hget : ∀ n : NeedState, dictGet
      [(NeedState.engagement, st.needs NeedState.engagement),
       (NeedState.reach, st.needs NeedState.reach),
       (NeedState.relevance, st.needs NeedState.relevance),
       (NeedState.authority, st.needs NeedState.authority),
       (NeedState.conversion, st.needs NeedState.conversion)] n = some (st.needs n) := by
    intro n
    cases n <;> rfl
  simp only [hget]

/-- C8 counterexample: an unknown need key makes the whole load fail (the
`ValueError` propagates) instead of being ignored, and a missing need key
leaves that need undefined in the loaded mapping instead of defaulting to
100.0. -/
theorem load_state_unknown_missing_cex :
    load_state { needs := [(("bogus" : String), (50 : ℚ))],
                 metrics := XMetrics.default 0, last_action_time := 0 } = none ∧
    (load_state { needs := [(("reach" : String), (50 : ℚ))],
                  metrics := XMetrics.default 0, last_action_time := 0 }).map
      (fun L => L.needs NeedState.engagement) = some none := ⟨rfl, rfl⟩

/-- C8 amended: on load, a stored needs dict containing any key outside the
closed enumeration makes the load fail with an uncaught error rather than
being ignored, and a need whose key is absent from the stored dict is simply
absent from the loaded mapping (no 100.0 default); the all-100 default arises
only from the constructor when no file exists. -/
theorem load_state_key_handling (l : List (String × ℚ)) (m : XMetrics) (t : ℚ) :
    ((∃ p ∈ l, parseNeed p.1 = none) →
      load_state { needs := l, metrics := m, last_action_time := t } = none) ∧
    (∀ L, load_state { needs := l, metrics := m, last_action_time := t } = some L →
      ∀ n : NeedState, (∀ p ∈ l, p.1 ≠ n.value) → L.needs n = none) ∧
    (∀ now : ℚ, ∀ n : NeedState, (StateManager.initial now).needs n = 100) := by
  refine ⟨?_, ?_, fun _ _ => rfl⟩
  · intro h
    simp [load_state, loadNeedsDict_none h]
  · intro L hL n hn
    simp only [load_state, Option.map_eq_some'] at hL
    obtain ⟨d, hd, hLd⟩ := hL
    subst hLd
    show dictGet d n = none
    simp only [dictGet, Option.map_eq_none', List.find?_eq_none]
    intro q hq
    have hqd : q ∈ d := List.mem_reverse.mp hq
    obtain ⟨p, hp, hpn⟩ := loadNeedsDict_mem hd q hqd
    have hval : q.1.value = p.1 := parseNeed_eq_some hpn
    intro hbeq
    have hq1 : q.1 = n := eq_of_beq hbeq
    exact hn p hp (by rw [← hval, hq1])

/-- Witness for the amended C8 at concrete inputs: loading a file whose needs
dict holds only the unknown key fails, and loading a file holding only
`reach` yields a state in which `engagement` is undefined. -/
theorem load_state_key_handling_witness :
    load_state { needs := [(("junk" : String), (1 : ℚ))],
                 metrics := XMetrics.default 0, last_action_time := 0 } = none ∧
    (LoadedState.mk (fun n => dictGet [(NeedState.reach, (50 : ℚ))] n)
      (XMetrics.default 0) 0).needs NeedState.engagement = none := by
  constructor
  · exact (load_state_key_handling [(("junk" : String), (1 : ℚ))]
      (XMetrics.default 0) 0).1 ⟨(("junk" : String), (1 : ℚ)), by simp, rfl⟩
  · exact (load_state_key_handling [(("reach" : String), (50 : ℚ))]
      (XMetrics.default 0) 0).2.1
      (LoadedState.mk (fun n => dictGet [(NeedState.reach, (50 : ℚ))] n)
        (XMetrics.default 0) 0)
      rfl NeedState.engagement (by decide)

/-- C3: an invocation of `execute_action` whose result carries the `"error"`
key (whether the call returned an error dict or raised) leaves the whole
state — need pool and `last_action_time` — unchanged, does not persist it,
and returns the error-carrying result to the caller. -/
theorem execute_action_error (now : ℚ) (action : ActionType) (outcome : CallOutcome)
    (st : StateManager)
    (h : ((execute_action now action outcome st).2.2).hasError = true) :
    (execute_action now action outcome st).1 = st ∧
    (execute_action now action outcome st).2.1 = false ∧
    (∀ r : ApiResult, outcome = .returns r →
      (execute_action now action outcome st).2.2 = r) := by
  cases outcome with
  | raises m =>
    refine ⟨rfl, rfl, ?_⟩
    intro r hr
    cases hr
  | returns r =>
    cases hr : r.hasError with
    | true =>
      have hred : execute_action now action (.returns r) st = (st, false, r) := by
        simp [execute_action, hr]
      refine ⟨by rw [hred], by rw [hred], ?_⟩
      intro r0 h0
      injection h0 with h1
      rw [hred, h1]
    | false =>
      exfalso
      have hout : (execute_action now action (.returns r) st).2.2 = r := by
        simp [execute_action, hr]
      rw [hout, hr] at h
      cases h

/-- Witness for C3 at a concrete input: a returned `{"error": "rate limit"}`
leaves the initial state untouched, skips persistence, and surfaces the
error. -/
theorem execute_action_error_witness :
    ((execute_action 5 ActionType.post (.returns (.err "rate limit"))
        (StateManager.initial 0)).2.2).hasError = true ∧
    (execute_action 5 ActionType.post (.returns (.err "rate limit"))
        (StateManager.initial 0)).1 = StateManager.initial 0 ∧
    (execute_action 5 ActionType.post (.returns (.err "rate limit"))
        (StateManager.initial 0)).2.1 = false ∧
    (execute_action 5 ActionType.post (.returns (.err "rate limit"))
        (StateManager.initial 0)).2.2 = ApiResult.err "rate limit" := by
  have h := execute_action_error 5 ActionType.post (.returns (.err "rate limit"))
    (StateManager.initial 0) rfl
  exact ⟨rfl, h.1, h.2.1, h.2.2 _ rfl⟩

/-- A need untouched by the effect list keeps its value. -/
theorem apply_effects_not_mem (eff : List (NeedState × ℚ)) (needs : NeedState → ℚ)
    (n : NeedState) (h : ∀ p ∈ eff, p.1 ≠ n) :
    apply_effects eff needs n = needs n := by
  induction eff generalizing needs with
  | nil => rfl
  | cons p rest ih =>
    have hp : p.1 ≠ n := h p (List.mem_cons_self p rest)
    show apply_effects rest
      (fun k => if k = p.1 then min 100 (needs k + p.2) else needs k) n = needs n
    rw [ih _ (fun q hq => h q (List.mem_cons_of_mem p hq))]
    simp [Ne.symm hp]

/-- A need targeted by a duplicate-free effect list is set to
`min 100 (value + magnitude)`. -/
theorem apply_effects_mem (eff : List (NeedState × ℚ)) (needs : NeedState → ℚ)
    (n : NeedState) (m : ℚ) (hnd : (eff.map Prod.fst).Nodup) (hmem : (n, m) ∈ eff) :
    apply_effects eff needs n = min 100 (needs n + m) := by
  induction eff generalizing needs with
  | nil => cases hmem
  | cons p rest ih =>
    obtain ⟨hhead, htail⟩ := List.nodup_cons.mp hnd
    rcases List.mem_cons.mp hmem with heq | hmem0
    · cases heq.symm
      have hne : ∀ q ∈ rest, q.1 ≠ n := by
        intro q hq hqn
        have hq1 : q.1 ∈ rest.map Prod.fst := List.mem_map_of_mem Prod.fst hq
        rw [hqn] at hq1
        exact hhead hq1
      show apply_effects rest
        (fun k => if k = n then min 100 (needs k + m) else needs k) n =
          min 100 (needs n + m)
      rw [apply_effects_not_mem rest _ n hne]
      simp
    · have hn_in : n ∈ rest.map Prod.fst := List.mem_map.mpr ⟨(n, m), hmem0, rfl⟩
      have hne : p.1 ≠ n := fun heq => hhead (heq ▸ hn_in)
      show apply_effects rest
        (fun k => if k = p.1 then min 100 (needs k + p.2) else needs k) n =
          min 100 (needs n + m)
      rw [ih _ htail hmem0]
      rw [if_neg (Ne.symm hne)]

/-- Every catalog effect list has pairwise-distinct target needs and strictly
positive magnitudes. -/
theorem action_effects_facts (a : ActionType) (eff : List (NeedState × ℚ))
    (h : action_effects a = some eff) :
    (eff.map Prod.fst).Nodup ∧ ∀ p ∈ eff, 0 < p.2 := by
  cases a <;> cases h <;> exact ⟨by decide, by decide⟩

/-- C6: applying an action's catalog effects sets each affected need to
`min 100 (value + magnitude)` (so no need is pushed above 100), leaves the
other needs alone, and sets `last_action_time` to now; when every affected
need is already at 100 the pool is unchanged while the timestamp still
advances. -/
theorem update_state_spec (now : ℚ) (a : ActionType) (eff : List (NeedState × ℚ))
    (st : StateManager) (heff : action_effects a = some eff) :
    (∀ p ∈ eff, (update_state_from_action now a st).needs p.1 =
      min 100 (st.needs p.1 + p.2)) ∧
    (∀ p ∈ eff, (update_state_from_action now a st).needs p.1 ≤ 100) ∧
    (∀ n : NeedState, (∀ p ∈ eff, p.1 ≠ n) →
      (update_state_from_action now a st).needs n = st.needs n) ∧
    (update_state_from_action now a st).last_action_time = now ∧
    ((∀ p ∈ eff, st.needs p.1 = 100) →
      (update_state_from_action now a st).needs = st.needs) := by
  obtain ⟨hnd, hpos⟩ := action_effects_facts a eff heff
  have hneeds : (update_state_from_action now a st).needs = apply_effects eff st.needs := by
    simp [update_state_from_action, heff]
  refine ⟨?_, ?_, ?_, rfl, ?_⟩
  · rintro ⟨n, m⟩ hp
    rw [hneeds]
    exact apply_effects_mem eff st.needs n m hnd hp
  · rintro ⟨n, m⟩ hp
    rw [hneeds, apply_effects_mem eff st.needs n m hnd hp]
    exact min_le_left _ _
  · intro n hn
    rw [hneeds]
    exact apply_effects_not_mem eff st.needs n hn
  · intro hall
    rw [hneeds]
    funext n
    by_cases hn : ∀ p ∈ eff, p.1 ≠ n
    · exact apply_effects_not_mem eff st.needs n hn
    · push_neg at hn
      obtain ⟨p, hp, hpn⟩ := hn
      obtain ⟨n0, m0⟩ := p
      cases hpn
      rw [apply_effects_mem eff st.needs n0 m0 hnd hp, hall ⟨n0, m0⟩ hp]
      have hm : (0:ℚ) < m0 := hpos ⟨n0, m0⟩ hp
      rw [min_eq_left (by linarith)]

/-- Witness for C6 at a concrete input (spec scenario 3): a POST on a pool
with every need at 50 yields engagement 65, reach 60, relevance 55 and the
new timestamp. -/
theorem update_state_spec_witness :
    action_effects ActionType.post =
      some [(NeedState.engagement, 15), (NeedState.reach, 10), (NeedState.relevance, 5)] ∧
    (update_state_from_action 7 ActionType.post
      (StateManager.mk (fun _ => 50) (XMetrics.default 0) 0)).needs NeedState.engagement = 65 ∧
    (update_state_from_action 7 ActionType.post
      (StateManager.mk (fun _ => 50) (XMetrics.default 0) 0)).needs NeedState.reach = 60 ∧
    (update_state_from_action 7 ActionType.post
      (StateManager.mk (fun _ => 50) (XMetrics.default 0) 0)).needs NeedState.relevance = 55 ∧
    (update_state_from_action 7 ActionType.post
      (StateManager.mk (fun _ => 50) (XMetrics.default 0) 0)).last_action_time = 7 := by
  have h := update_state_spec 7 ActionType.post
    [(NeedState.engagement, 15), (NeedState.reach, 10), (NeedState.relevance, 5)]
    (StateManager.mk (fun _ => 50) (XMetrics.default 0) 0) rfl
  refine ⟨rfl, ?_, ?_, ?_, h.2.2.2.1⟩
  · have h1 := h.1 (NeedState.engagement, 15) (by simp)
    rw [h1]
    norm_num [min_def]
  · have h1 := h.1 (NeedState.reach, 10) (by simp)
    rw [h1]
    norm_num [min_def]
  · have h1 := h.1 (NeedState.relevance, 5) (by simp)
    rw [h1]
    norm_num [min_def]

/-- Every decay rate is positive. -/
theorem decay_rates_pos (n : NeedState) : 0 < n.decay_rates := by
  cases n <;> norm_num [NeedState.decay_rates]

/-- C1: for a need with value `v ≥ 0`, decaying at time `now` sets the value to
`max 0 (v − rate·h)` with `h = (now − last_action_time)/3600`; when zero time
has elapsed the value is unchanged; and whenever `now ≥ last_action_time` the
value never increases. -/
theorem decay_needs_spec (now : ℚ) (st : StateManager) (n : NeedState)
    (h0 : 0 ≤ st.needs n) :
    (st.decay_needs now).needs n =
      max 0 (st.needs n - n.decay_rates * ((now - st.last_action_time) / 3600)) ∧
    (now = st.last_action_time → (st.decay_needs now).needs n = st.needs n) ∧
    (st.last_action_time ≤ now → (st.decay_needs now).needs n ≤ st.needs n) := by
  refine ⟨rfl, ?_, ?_⟩
  · intro hnow
    simp [StateManager.decay_needs, hnow, max_eq_right h0]
  · intro hle
    have hrate : 0 ≤ n.decay_rates := le_of_lt (decay_rates_pos n)
    have hhours : 0 ≤ (now - st.last_action_time) / 3600 := by
      have : (0:ℚ) ≤ now - st.last_action_time := sub_nonneg.mpr hle
      positivity
    have hprod : 0 ≤ n.decay_rates * ((now - st.last_action_time) / 3600) :=
      mul_nonneg hrate hhours
    show max 0 (st.needs n - n.decay_rates * ((now - st.last_action_time) / 3600)) ≤ st.needs n
    exact max_le h0 (sub_le_self _ hprod)

/-- Enum iteration visits every action. -/
theorem mem_actionType_all (a : ActionType) : a ∈ ActionType.all := by
  cases a <;> simp [ActionType.all]

/-- An action whose every target need sits at 100 has utility 0. -/
theorem utility_saturated (needs : NeedState → ℚ) (eff : List (NeedState × ℚ))
    (h : ∀ p ∈ eff, needs p.1 = 100) : utility needs eff = 0 := by
  induction eff with
  | nil => rfl
  | cons p rest ih =>
    have hp := h p (List.mem_cons_self p rest)
    have hrest := ih (fun q hq => h q (List.mem_cons_of_mem p hq))
    simp only [utility, List.map_cons, List.sum_cons] at hrest ⊢
    rw [hp, hrest]
    norm_num

/-- The unsorted candidate list holds exactly the catalog actions, each paired
with its utility score. -/
theorem candidateActions_mem_iff (needs : NeedState → ℚ) (a : ActionType) (s : ℚ) :
    (a, s) ∈ candidateActions needs ↔
      ∃ eff, action_effects a = some eff ∧ s = utility needs eff := by
  constructor
  · intro hp
    obtain ⟨a0, _, hfa⟩ := List.mem_filterMap.mp hp
    obtain ⟨eff, heff, hpe⟩ := Option.map_eq_some'.mp hfa
    rw [Prod.mk.injEq] at hpe
    obtain ⟨rfl, rfl⟩ := hpe
    exact ⟨eff, heff, rfl⟩
  · rintro ⟨eff, heff, hpe⟩
    apply List.mem_filterMap.mpr
    refine ⟨a, mem_actionType_all a, ?_⟩
    rw [heff, hpe]
    rfl

/-- Filtering the entries of one score value commutes with a stable ordered
insert: an element of that very score lands in front of nothing it should
follow (it is placed after every strictly larger key), and an element of a
different score is invisible to the filter. -/
theorem filter_orderedInsert_key (c : ℚ) (x : ActionType × ℚ)
    (l : List (ActionType × ℚ)) :
    (List.orderedInsert rankRel x l).filter (fun p => decide (p.2 = c)) =
      if x.2 = c then x :: l.filter (fun p => decide (p.2 = c))
      else l.filter (fun p => decide (p.2 = c)) := by
  induction l with
  | nil =>
    by_cases hxc : x.2 = c
    · simp [List.orderedInsert, List.filter_cons, hxc]
    · simp [List.orderedInsert, List.filter_cons, hxc]
  | cons y ys ih =>
    rcases le_or_lt y.2 x.2 with hxy | hxy
    · have hins : List.orderedInsert rankRel x (y :: ys) = x :: y :: ys := by
        simp [List.orderedInsert, rankRel, hxy]
      rw [hins]
      by_cases hxc : x.2 = c
      · simp [List.filter_cons, hxc]
      · simp [List.filter_cons, hxc]
    · have hins : List.orderedInsert rankRel x (y :: ys) =
          y :: List.orderedInsert rankRel x ys := by
        simp [List.orderedInsert, rankRel, not_le.mpr hxy]
      rw [hins, List.filter_cons, ih]
      by_cases hxc : x.2 = c
      · have hyc : ¬(y.2 = c) := fun h => hxy.ne' (h.trans hxc.symm)
        simp [hxc, hyc, List.filter_cons]
      · simp [hxc, List.filter_cons]

/-- Stability of the stable sort: the sublist of any one score value is
exactly the corresponding sublist of the input, in input order. -/
theorem filter_insertionSort_key (c : ℚ) (l : List (ActionType × ℚ)) :
    (l.insertionSort rankRel).filter (fun p => decide (p.2 = c)) =
      l.filter (fun p => decide (p.2 = c)) := by
  induction l with
  | nil => rfl
  | cons x xs ih =>
    show (List.orderedInsert rankRel x (xs.insertionSort rankRel)).filter
        (fun p => decide (p.2 = c)) = _
    rw [filter_orderedInsert_key, ih]
    by_cases hxc : x.2 = c
    · simp [hxc, List.filter_cons]
    · simp [hxc, List.filter_cons]

/-- C5: the ranking returned by `get_available_actions` is sorted in
descending order of score, and for every score value the actions carrying it
appear in exactly the catalog iteration order (the sort is stable). -/
theorem get_available_actions_sorted (now : ℚ) (st : StateManager) :
    List.Sorted rankRel (get_available_actions now st).2 ∧
    ∀ c : ℚ, (get_available_actions now st).2.filter (fun p => decide (p.2 = c)) =
      (candidateActions (st.decay_needs now).needs).filter
        (fun p => decide (p.2 = c)) := by
  constructor
  · exact List.sorted_insertionSort rankRel _
  · intro c
    exact filter_insertionSort_key c _

/-- C4: every catalog action appears in the ranking scored by
`Σ magnitude · (1 − value/100)` over its effects (on the freshly decayed
values); every ranked pair arises that way; an action whose target needs all
sit at 100 is ranked with score exactly 0; and `QUOTE`, `RETWEET`, `SEARCH`
are absent from the ranking altogether. -/
theorem get_available_actions_scores (now : ℚ) (st : StateManager) :
    (∀ a eff, action_effects a = some eff →
      (a, utility (st.decay_needs now).needs eff) ∈ (get_available_actions now st).2) ∧
    (∀ a s, (a, s) ∈ (get_available_actions now st).2 →
      ∃ eff, action_effects a = some eff ∧
        s = (eff.map (fun q => q.2 * (1 - (st.decay_needs now).needs q.1 / 100))).sum) ∧
    (∀ a eff, action_effects a = some eff →
      (∀ q ∈ eff, (st.decay_needs now).needs q.1 = 100) →
      (a, (0:ℚ)) ∈ (get_available_actions now st).2) ∧
    (∀ s : ℚ, (ActionType.quote, s) ∉ (get_available_actions now st).2 ∧
      (ActionType.retweet, s) ∉ (get_available_actions now st).2 ∧
      (ActionType.search, s) ∉ (get_available_actions now st).2) := by
  have hperm := List.perm_insertionSort rankRel
    (candidateActions (st.decay_needs now).needs)
  refine ⟨?_, ?_, ?_, ?_⟩
  · intro a eff heff
    exact hperm.mem_iff.mpr
      ((candidateActions_mem_iff _ a _).mpr ⟨eff, heff, rfl⟩)
  · intro a s hmem
    exact (candidateActions_mem_iff _ a s).mp (hperm.mem_iff.mp hmem)
  · intro a eff heff hsat
    exact hperm.mem_iff.mpr
      ((candidateActions_mem_iff _ a _).mpr
        ⟨eff, heff, (utility_saturated _ _ hsat).symm⟩)
  · intro s
    refine ⟨?_, ?_, ?_⟩ <;> intro hmem <;>
      obtain ⟨eff, heff, _⟩ :=
        (candidateActions_mem_iff _ _ _).mp (hperm.mem_iff.mp hmem) <;>
      simp [action_effects] at heff

/-- Witness for C4 at a concrete input (spec scenario 1): on a fresh pool with
zero elapsed time every catalog action scores 0, so `(POST, 0)` is ranked,
while `QUOTE` is absent. -/
theorem get_available_actions_scores_witness :
    (ActionType.post, (0:ℚ)) ∈ (get_available_actions 0 (StateManager.initial 0)).2 ∧
    (ActionType.quote, (0:ℚ)) ∉ (get_available_actions 0 (StateManager.initial 0)).2 := by
  have h := get_available_actions_scores 0 (StateManager.initial 0)
  constructor
  · apply h.2.2.1 ActionType.post
      [(NeedState.engagement, 15), (NeedState.reach, 10), (NeedState.relevance, 5)] rfl
    intro q _
    show max 0 (100 - q.1.decay_rates * ((0 - 0) / 3600)) = 100
    norm_num
  · exact (h.2.2.2 0).1

/-- C7 counterexample: from a full pool with baseline 0, decaying at hour 50
and then again at hour 60 leaves `engagement` at 45, while a single decay at
hour 60 leaves it at 70 — repeated decay is not one elapsed-interval
computation. -/
theorem decay_twice_ne_single_cex :
    (((StateManager.initial 0).decay_needs 180000).decay_needs 216000).needs
      NeedState.engagement = 45 ∧
    ((StateManager.initial 0).decay_needs 216000).needs NeedState.engagement = 70 ∧
    (((StateManager.initial 0).decay_needs 180000).decay_needs 216000).needs
        NeedState.engagement ≠
      ((StateManager.initial 0).decay_needs 216000).needs NeedState.engagement := by
  have h1 : (((StateManager.initial 0).decay_needs 180000).decay_needs 216000).needs
      NeedState.engagement = 45 := by
    norm_num [StateManager.decay_needs, StateManager.initial, NeedState.decay_rates,
      max_def]
  have h2 : ((StateManager.initial 0).decay_needs 216000).needs
      NeedState.engagement = 70 := by
    norm_num [StateManager.decay_needs, StateManager.initial, NeedState.decay_rates,
      max_def]
  refine ⟨h1, h2, ?_⟩
  rw [h1, h2]
  norm_num

/-- C7 amended: each decay call subtracts `rate · (now − last_action_time)/3600`
from the current (possibly already decayed) value and floors at 0, leaving the
baseline `last_action_time` untouched; hence two successive decays at `t1` then
`t2` yield `max 0 (max 0 (v − r·h1) − r·h2)`, which never exceeds — and in
general falls below — the single-decay value `max 0 (v − r·h2)`. -/
theorem decay_needs_stale_baseline (t1 t2 : ℚ) (st : StateManager) (n : NeedState) :
    ((st.decay_needs t1).decay_needs t2).needs n =
      max 0 (max 0 (st.needs n - n.decay_rates * ((t1 - st.last_action_time) / 3600))
        - n.decay_rates * ((t2 - st.last_action_time) / 3600)) ∧
    (st.decay_needs t1).last_action_time = st.last_action_time ∧
    (0 ≤ st.needs n → st.last_action_time ≤ t1 →
      ((st.decay_needs t1).decay_needs t2).needs n ≤ (st.decay_needs t2).needs n) := by
  refine ⟨rfl, rfl, ?_⟩
  intro h0 ht
  have hA : max 0 (st.needs n - n.decay_rates * ((t1 - st.last_action_time) / 3600)) ≤
      st.needs n := by
    apply max_le h0
    apply sub_le_self
    apply mul_nonneg (le_of_lt (decay_rates_pos n))
    have hd : (0:ℚ) ≤ t1 - st.last_action_time := by linarith
    positivity
  exact max_le_max le_rfl (sub_le_sub_right hA _)

/-- Witness for the amended C7 at the counterexample input: 45 ≤ 70. -/
theorem decay_needs_stale_baseline_witness :
    (((StateManager.initial 0).decay_needs 180000).decay_needs 216000).needs
        NeedState.engagement ≤
      ((StateManager.initial 0).decay_needs 216000).needs NeedState.engagement := by
  exact (decay_needs_stale_baseline 180000 216000 (StateManager.initial 0)
    NeedState.engagement).2.2
    (by norm_num [StateManager.initial]) (by norm_num [StateManager.initial])

/-- C10: `get_available_actions` mutates the pool before scoring — the state
it leaves behind has every need decayed over `now − last_action_time`, with
the baseline timestamp unchanged, so a second call without an intervening
action decays the already-decayed values again; with positive value and a
strictly later clock the pool strictly decreases. -/
theorem get_available_actions_mutates (now1 now2 : ℚ) (st : StateManager)
    (n : NeedState) :
    ((get_available_actions now1 st).1).needs n =
      max 0 (st.needs n - n.decay_rates * ((now1 - st.last_action_time) / 3600)) ∧
    ((get_available_actions now1 st).1).last_action_time = st.last_action_time ∧
    ((get_available_actions now2 ((get_available_actions now1 st).1)).1).needs n =
      max 0 (max 0 (st.needs n - n.decay_rates * ((now1 - st.last_action_time) / 3600))
        - n.decay_rates * ((now2 - st.last_action_time) / 3600)) ∧
    (0 < st.needs n → st.last_action_time < now1 →
      ((get_available_actions now1 st).1).needs n < st.needs n) := by
  refine ⟨rfl, rfl, rfl, ?_⟩
  intro hv hlt
  show max 0 (st.needs n - n.decay_rates * ((now1 - st.last_action_time) / 3600)) <
    st.needs n
  apply max_lt hv
  have hh : 0 < (now1 - st.last_action_time) / 3600 := by
    apply div_pos (by linarith) (by norm_num)
  have hp : 0 < n.decay_rates * ((now1 - st.last_action_time) / 3600) :=
    mul_pos (decay_rates_pos n) hh
  linarith

/-- Witness for C10 at a concrete input: one ranking call on a fresh pool an
hour after the baseline strictly lowers `engagement`. -/
theorem get_available_actions_mutates_witness :
    0 < (StateManager.initial 0).needs NeedState.engagement ∧
    (StateManager.initial 0).last_action_time < 3600 ∧
    ((get_available_actions 3600 (StateManager.initial 0)).1).needs
        NeedState.engagement <
      (StateManager.initial 0).needs NeedState.engagement := by
  refine ⟨by norm_num [StateManager.initial], by norm_num [StateManager.initial], ?_⟩
  exact (get_available_actions_mutates 3600 3600 (StateManager.initial 0)
    NeedState.engagement).2.2.2
    (by norm_num [StateManager.initial]) (by norm_num [StateManager.initial])

/-- C9 counterexample: a 429 whose reset time already passed (`sleep = 0`)
causes no sleep and no retry — even with a success queued next, the call
returns the extracted 429 error instead of retrying. -/
theorem make_request_past_reset_cex :
    make_request 100
      [HttpResponse.mk 429 (some 50) none none "limit",
       HttpResponse.mk 200 none none none "ok"] =
      (ReqResult.failure ("API returned status code 429: limit"), []) ∧
    (make_request 100
      [HttpResponse.mk 429 (some 50) none none "limit",
       HttpResponse.mk 200 none none none "ok"]).1 ≠ ReqResult.success "ok" := by
  exact ⟨rfl, by decide⟩

/-- C9 amended: on a 429 the client computes `sleep = max(reset − now, 0)` and
only when `sleep > 0` blocks for that duration and retries (recursively); a
throttled response whose reset time is strictly in the future causes exactly
one backoff sleep of `reset − now` then a retry, and a succeeding retry makes
the call report success; when the reset time is not in the future the call
performs no retry and returns the extracted error. -/
theorem make_request_throttle_retry (now reset : Int) (r s : HttpResponse)
    (h429 : r.status = 429) (hreset : r.rateLimitReset = some reset)
    (hfut : now < reset) (h200 : s.status = 200) :
    make_request now [r, s] = (ReqResult.success s.bodyText, [reset - now]) ∧
    (∀ r0 : HttpResponse, r0.status = 429 → r0.rateLimitReset = some reset →
      reset ≤ now → make_request now [r0, s] = (respError r0, [])) := by
  constructor
  · have hsleep : max (reset - now) 0 = reset - now := max_eq_left (by omega)
    have hpos : (0:Int) < reset - now := by omega
    simp [make_request, h429, hreset, h200, hsleep, hpos]
  · intro r0 h0 hr0 hle
    have hsleep : max (reset - now) 0 = 0 := max_eq_right (by omega)
    simp [make_request, h0, hr0, hsleep]

/-- Witness for the amended C9 at a concrete input: 429 with reset 30 seconds
in the future, then a 200 — one sleep of 30 seconds, then success. -/
theorem make_request_throttle_retry_witness :
    make_request 100
      [HttpResponse.mk 429 (some 130) none none "limit",
       HttpResponse.mk 200 none none none "ok"] =
      (ReqResult.success "ok", [30]) := by
  have h := make_request_throttle_retry 100 130
    (HttpResponse.mk 429 (some 130) none none "limit")
    (HttpResponse.mk 200 none none none "ok") rfl rfl (by norm_num) rfl
  rw [h.1]
  decide

/-- Witness for C1 at a concrete input: one need at value 100, decayed over
exactly one hour, loses exactly its rate. -/
theorem decay_needs_spec_witness :
    0 ≤ (StateManager.initial 0).needs NeedState.engagement ∧
    ((StateManager.initial 0).decay_needs 3600).needs NeedState.engagement =
      max 0 (100 - 1/2 * 1) := by
  refine ⟨by norm_num [StateManager.initial], ?_⟩
  have h := decay_needs_spec 3600 (StateManager.initial 0) NeedState.engagement
    (by norm_num [StateManager.initial])
  rw [h.1]
  norm_num [StateManager.initial, NeedState.decay_rates]

end XEnv
